import Mathlib

/-!
Verification development for the photoshare photo catalog engine
(`src/commands.go`, package `models`).

Go strings are modelled as `List Char` (`Str`); `time.Time` and `int64`
values as `ℤ`; nilable Go pointers as `Option`; a Go `(value, error)`
return pair as a product of options.  The relational store is a record
of the four tables used by the engine (photos, users, tags, photo_tags);
store failures are injected through explicit `Option Err` oracles at the
call sites where the code issues a query.
-/

namespace PhotoShare

/-! ### Text primitives (Go `strings` package) -/

abbrev Str := List Char

def spaceChar : Char := Char.ofNat 32

def pctChar : Char := Char.ofNat 37

def uscChar : Char := Char.ofNat 95

/-- Go `unicode.IsSpace` restricted to the Latin-1 range (space, \t, \n,
\v, \f, \r, NEL, NBSP); those are the only whitespace characters the
engine meets in its queries. -/
def goIsSpace (c : Char) : Bool :=
  c.toNat = 32 || c.toNat = 9 || c.toNat = 10 || c.toNat = 11 ||
  c.toNat = 12 || c.toNat = 13 || c.toNat = 133 || c.toNat = 160

/-- Go `strings.TrimSpace`. -/
def goTrim (s : Str) : Str :=
  ((s.dropWhile goIsSpace).reverse.dropWhile goIsSpace).reverse

/-- Go `strings.ToUpper` / SQL `UPPER` (ASCII range). -/
def upperS (s : Str) : Str := s.map Char.toUpper

/-- Go `strings.ToLower` (ASCII range). -/
def lowerS (s : Str) : Str := s.map Char.toLower

/-- Go `strings.Split(s, sep)` for a one-character separator `sep`:
`splitChar sep "" = [""]`, and separators delimit (possibly empty)
fields. -/
def splitChar (sep : Char) : Str → List Str
  | [] => [[]]
  | c :: cs =>
    if c = sep then [] :: splitChar sep cs
    else
      match splitChar sep cs with
      | [] => [[c]]
      | w :: ws => (c :: w) :: ws

/-- Inverse of `splitChar`: joins words with a single space between
consecutive words. -/
def joinSpace : List Str → Str
  | [] => []
  | [w] => w
  | w :: ws => w ++ spaceChar :: joinSpace ws

/-- SQL `LIKE` pattern matching, fuelled so that the recursion is
structural (every step shortens the pattern or the subject, so any fuel
above `p.length + s.length` is enough and the wrapper below supplies
it): `%` matches any (possibly empty) sequence, `_` matches exactly one
character, every other pattern character matches itself. -/
def likeMatchF : ℕ → Str → Str → Bool
  | 0, _, _ => false
  | fuel + 1, p, s =>
    match p, s with
    | [], [] => true
    | [], _ :: _ => false
    | c :: ps, s =>
      if c = pctChar then
        likeMatchF fuel ps s ||
          (match s with
           | [] => false
           | _ :: s2 => likeMatchF fuel (c :: ps) s2)
      else
        match s with
        | [] => false
        | d :: s2 => (c = uscChar || c = d) && likeMatchF fuel ps s2

/-- SQL `LIKE`: whether subject `s` matches pattern `p`. -/
def likeMatch (p s : Str) : Bool :=
  likeMatchF (p.length + s.length + 1) p s

/-- The wildcard-wrapped pattern `"%" + word + "%"` the code builds for
each search word. -/
def likePat (w : Str) : Str := pctChar :: w ++ [pctChar]

/-! ### Entity model (`models` package structs) -/

/-- `Photo` struct; `CreatedAt` is an integer timestamp.  The `tags`
field mirrors the Go `Tags []string` field, which carries the gorp tag
`db:"-"`: it is an in-memory value only, never a column of the photos
table. -/
structure Photo where
  id : ℤ
  ownerID : ℤ
  createdAt : ℤ
  title : Str
  filename : Str
  tags : List Str
  upVotes : ℤ
  downVotes : ℤ
deriving DecidableEq, Repr

/-- Modelled from the spec: the identity collaborator's user value
(§6 of the spec) exposing `ID`, `Name`, `IsAuthenticated`, `IsAdmin`, and
`HasVoted(photoID)`; the `User` struct itself is not part of
`src/commands.go`. -/
structure User where
  id : ℤ
  name : Str
  isAuthenticated : Bool
  isAdmin : Bool
  voted : ℤ → Bool

/-- The relational store: the photos table, the users table, the tags
table (`id`, unique `name`) and the photo_tags association table
(`photo_id`, `tag_id`). -/
structure DBState where
  photos : List Photo
  users : List User
  tags : List (ℤ × Str)
  photoTags : List (ℤ × ℤ)

/-- A store failure (connectivity, constraint violation, ...),
propagated unchanged by the engine. -/
inductive Err where
  | store (code : ℕ)
deriving DecidableEq, Repr

def storeErr : Err := Err.store 0

/-! ### Pagination helper -/

def PageSize : ℤ := 12

/-- Two's-complement `int64` wrap-around: the representative of
`x mod 2^64` in `[-2^63, 2^63)`. -/
def wrap64 (x : ℤ) : ℤ := (x + 2 ^ 63) % 2 ^ 64 - 2 ^ 63

/-- `getOffset(pageNum int64) int64 { return (pageNum - 1) * PageSize }`:
the subtraction and multiplication are Go `int64` operations, so the
result wraps modulo `2^64`.  (A single outer `wrap64` is exact: wrapping
the intermediate `pageNum - 1` first changes it only by a multiple of
`2^64`, which the final wrap absorbs.) -/
def getOffset (pageNum : ℤ) : ℤ := wrap64 ((pageNum - 1) * PageSize)

/-! ### IEEE-754 double model for `NewPhotoList`

`NewPhotoList` computes `int64(math.Ceil(float64(total) / float64(PageSize)))`
where `total` is a `SELECT COUNT(id)` result, hence a natural number.
We model the two rounding steps (int64-to-double conversion, double
division by the exact constant 12) exactly: a positive real rounds to
the nearest value `m * 2^e` with a 53-bit significand `m`, ties to even.
A nonnegative double is represented as a significand/exponent pair;
`math.Ceil` is exact on doubles and the final `int64` conversion of the
integral result is exact in the range the engine meets, so those two
steps appear as an exact ceiling.  All arithmetic is on `ℕ`/`ℤ` so the
model evaluates inside the kernel. -/

/-- Floor of log2 of `n`, fuelled structural recursion; exact for every
`1 ≤ n < 2 ^ fuel` (fuel 64 covers every value derived from an `int64`
total). -/
def natLog2 (fuel n : ℕ) : ℕ :=
  match fuel with
  | 0 => 0
  | fuel + 1 => if n < 2 then 0 else natLog2 fuel (n / 2) + 1

/-- Round the fraction `a / b` (with `b > 0`) to the nearest integer,
ties to even. -/
def rhe (a b : ℕ) : ℕ :=
  if 2 * (a % b) < b then a / b
  else if b < 2 * (a % b) then a / b + 1
  else if (a / b) % 2 = 0 then a / b else a / b + 1

/-- Whether `a / b < 2 ^ k`, by cross-multiplication. -/
def qltPow2 (a b : ℕ) (k : ℤ) : Bool :=
  if 0 ≤ k then a < 2 ^ k.toNat * b else a * 2 ^ (-k).toNat < b

/-- Floor of log2 of the positive fraction `a / b`:
`natLog2 64 a - natLog2 64 b`, adjusted down by one when that
overestimates. -/
def ratLog2 (a b : ℕ) : ℤ :=
  if qltPow2 a b ((natLog2 64 a : ℤ) - (natLog2 64 b : ℤ)) then
    (natLog2 64 a : ℤ) - (natLog2 64 b : ℤ) - 1
  else
    (natLog2 64 a : ℤ) - (natLog2 64 b : ℤ)

/-- The correctly rounded binary64 quotient `a / b` (for `a, b ≥ 1`) as
a significand/exponent pair `(m, e)` of value `m * 2^e`: `e` is the
exponent of the quotient minus 52, and `m` the round-to-nearest-even
53-bit significand. -/
def floatDivM (a b : ℕ) : ℕ × ℤ :=
  if 0 ≤ ratLog2 a b - 52 then
    (rhe a (b * 2 ^ (ratLog2 a b - 52).toNat), ratLog2 a b - 52)
  else
    (rhe (a * 2 ^ (-(ratLog2 a b - 52)).toNat) b, ratLog2 a b - 52)

/-- `float64(total)` for a positive total: the correctly rounded
quotient `total / 1`. -/
def floatOfTotal (total : ℕ) : ℕ × ℤ := floatDivM total 1

/-- The exact rational value of `float64(total) / 12` as a
numerator/denominator pair (the float division then rounds it). -/
def div12Frac (s : ℕ × ℤ) : ℕ × ℕ :=
  if 0 ≤ s.2 then (s.1 * 2 ^ s.2.toNat, 12) else (s.1, 12 * 2 ^ (-s.2).toNat)

/-- `math.Ceil` of a nonnegative double given as a significand/exponent
pair (exact: the ceiling of a double is a double), followed by the exact
`int64` conversion. -/
def ceilFloat (s : ℕ × ℤ) : ℕ :=
  if 0 ≤ s.2 then s.1 * 2 ^ s.2.toNat
  else (s.1 + 2 ^ (-s.2).toNat - 1) / 2 ^ (-s.2).toNat

/-- `NewPhotoList`'s page count:
`int64(math.Ceil(float64(total) / float64(PageSize)))`.  (`float64(0)`
is exactly 0 and `Ceil(0/12) = 0`, the positive case goes through the
two rounded operations.) -/
def numPages (total : ℕ) : ℕ :=
  if total = 0 then 0
  else ceilFloat (floatDivM (div12Frac (floatOfTotal total)).1 (div12Frac (floatOfTotal total)).2)

/-! ### Permission predicates (`Photo.CanEdit` / `CanDelete` / `CanVote`) -/

/-- `Photo.CanEdit`: false for a nil or unauthenticated user, else
admin-or-owner. -/
def canEdit (photo : Photo) (user : Option User) : Bool :=
  match user with
  | none => false
  | some u =>
    if !u.isAuthenticated then false
    else u.isAdmin || photo.ownerID == u.id

/-- `Photo.CanDelete` simply delegates to `CanEdit`. -/
def canDelete (photo : Photo) (user : Option User) : Bool :=
  canEdit photo user

/-- `Photo.CanVote`: false for a nil or unauthenticated user, false for
the owner, else true iff the user has not voted on this photo. -/
def canVote (photo : Photo) (user : Option User) : Bool :=
  match user with
  | none => false
  | some u =>
    if !u.isAuthenticated then false
    else if photo.ownerID == u.id then false
    else !u.voted photo.id

structure Permissions where
  edit : Bool
  delete : Bool
  vote : Bool
deriving DecidableEq, Repr

/-! ### Tag synchronizer (`defaultPhotoManager.UpdateTags`) -/

/-- The normalization loop of `UpdateTags`: trim each name, skip empty
results, lowercase the rest (order and duplicates preserved, exactly as
the Go loop appends them to `params`). -/
def normalizeTags (tags : List Str) : List Str :=
  tags.filterMap fun n =>
    let t := goTrim n
    if t = [] then none else some (lowerS t)

/-- The statement `UpdateTags` ends up issuing: either the clearing
`DELETE FROM photo_tags WHERE photo_id=$1`, or
`SELECT add_tags($1, ...)` with the photo ID and the normalized names. -/
inductive TagOp where
  | clear (photoID : ℤ)
  | addTags (photoID : ℤ) (names : List Str)
deriving DecidableEq, Repr

/-- Which statement `UpdateTags` issues: the clearing path fires iff the
normalized tag list is empty and the photo already has a (non-zero) ID;
otherwise `add_tags` receives the photo ID and the normalized names. -/
def updateTagsOp (photo : Photo) : TagOp :=
  if normalizeTags photo.tags = [] ∧ photo.id ≠ 0 then
    TagOp.clear photo.id
  else
    TagOp.addTags photo.id (normalizeTags photo.tags)

/-- Smallest unused tag id. -/
def nextTagID (tags : List (ℤ × Str)) : ℤ :=
  (tags.map Prod.fst).foldr max 0 + 1

/-- Modelled from the spec: the store's `add_tags` procedure (not part
of `src/commands.go`) upserts Tag rows by name and atomically rewrites
the photo's association set to exactly the given names (§4.2 of the
spec). -/
def addTagsStore (photoID : ℤ) (names : List Str) (db : DBState) : DBState :=
  let tags1 := names.foldl
    (fun acc n => if acc.any (fun t => t.2 == n) then acc else acc ++ [(nextTagID acc, n)])
    db.tags
  let ids := names.filterMap fun n => (tags1.find? (fun t => t.2 == n)).map Prod.fst
  { db with
    tags := tags1
    photoTags :=
      db.photoTags.filter (fun a => decide (a.1 ≠ photoID)) ++ ids.map (fun i => (photoID, i)) }

/-- Effect of the statement `UpdateTags` issues on the store. -/
def applyTagOp (op : TagOp) (db : DBState) : DBState :=
  match op with
  | TagOp.clear pid =>
    { db with photoTags := db.photoTags.filter (fun a => decide (a.1 ≠ pid)) }
  | TagOp.addTags pid names => addTagsStore pid names db

/-- `defaultPhotoManager.UpdateTags` (success path). -/
def updateTags (photo : Photo) (db : DBState) : DBState :=
  applyTagOp (updateTagsOp photo) db

/-! ### `defaultPhotoManager.Insert`

The Go code opens a transaction `t := dbMap.Begin()` but then issues
`dbMap.Insert(photo)` and `mgr.UpdateTags(photo)` on the global `dbMap`
handle, not on `t`; each statement therefore auto-commits directly
against the store, and `t` (which holds no statements) is merely
committed at the end — and neither committed nor rolled back on the
early error returns.  The model makes each `dbMap` call a direct write. -/

/-- `dbMap.Insert`: gorp fires the `PreInsert` hook (stamping
`CreatedAt := now`), assigns the auto-increment key `newID`, and inserts
the row — directly, since the call goes through `dbMap`, not `t`. -/
def dbMapInsertPhoto (now newID : ℤ) (photo : Photo) (db : DBState) : Photo × DBState :=
  let p := { photo with createdAt := now, id := newID }
  (p, { db with photos := db.photos ++ [p] })

/-- `defaultPhotoManager.Insert`.  `tagStepFails` injects a store error
into the `UpdateTags` statement.  On that error the code returns
immediately: the photo row written by `dbMap.Insert` stays in the store
because that statement never ran inside `t`. -/
def insertPhotoMgr (tagStepFails : Bool) (now newID : ℤ) (photo : Photo)
    (db : DBState) : DBState × Option Err :=
  let r := dbMapInsertPhoto now newID photo db
  if tagStepFails then (r.2, some storeErr)
  else (updateTags r.1 r.2, none)

/-! ### `defaultPhotoManager.Get` / `GetDetail` -/

/-- The zero value `&Photo{}` the Go code allocates before the lookup. -/
def emptyPhoto : Photo :=
  { id := 0, ownerID := 0, createdAt := 0, title := [], filename := [],
    tags := [], upVotes := 0, downVotes := 0 }

/-- `dbMap.Get(photo, photoID)`: point lookup by primary key; `ok none`
is gorp's `nil, nil` for a missing row. -/
def dbMapGetPhoto (db : DBState) (fail : Option Err) (photoID : ℤ) :
    Except Err (Option Photo) :=
  match fail with
  | some e => Except.error e
  | none => Except.ok (db.photos.find? (fun p => p.id == photoID))

/-- `defaultPhotoManager.Get`: on a store error the code returns the
empty photo together with the error; a missing row becomes `nil, nil`;
a found row is returned with no error. -/
def getPhotoMgr (db : DBState) (fail : Option Err) (photoID : ℤ) :
    Option Photo × Option Err :=
  match dbMapGetPhoto db fail photoID with
  | Except.error e => (some emptyPhoto, some e)
  | Except.ok none => (none, none)
  | Except.ok (some p) => (some p, none)

/-- The `SELECT p.*, u.name AS owner_name FROM photos p JOIN users u ...
WHERE p.id=$1` row: present iff the photo exists and its owner row
exists (inner join). -/
def dbSelectDetailRow (db : DBState) (photoID : ℤ) : Option (Photo × Str) :=
  match db.photos.find? (fun p => p.id == photoID) with
  | none => none
  | some p =>
    match db.users.find? (fun u => u.id == p.ownerID) with
    | none => none
    | some u => some (p, u.name)

/-- The `SELECT t.* FROM tags t JOIN photo_tags pt ... WHERE
pt.photo_id=$1` rows, projected to names. -/
def photoTagNames (db : DBState) (photoID : ℤ) : List Str :=
  db.photoTags.filterMap fun pt =>
    if pt.1 == photoID then (db.tags.find? (fun t => t.1 == pt.2)).map Prod.snd
    else none

/-- `PhotoDetail`: embedded photo, owner name and the per-request
permission triple (a nil pointer until the success path fills it in). -/
structure PhotoDetail where
  photo : Photo
  ownerName : Str
  permissions : Option Permissions

/-- `defaultPhotoManager.GetDetail`: `sql.ErrNoRows` on the join becomes
`nil, nil`; any other select error is propagated with a nil detail; an
error on the tags query is propagated alongside the partially built
detail; on success the detail carries the tag names and the computed
permissions. -/
def getDetailMgr (db : DBState) (selFail tagFail : Option Err) (photoID : ℤ)
    (user : Option User) : Option PhotoDetail × Option Err :=
  match selFail with
  | some e => (none, some e)
  | none =>
    match dbSelectDetailRow db photoID with
    | none => (none, none)
    | some (p, oname) =>
      match tagFail with
      | some e => (some { photo := p, ownerName := oname, permissions := none }, some e)
      | none =>
        let p2 := { p with tags := p.tags ++ photoTagNames db photoID }
        (some { photo := p2, ownerName := oname,
                permissions := some
                  { edit := canEdit p2 user, delete := canDelete p2 user,
                    vote := canVote p2 user } }, none)

/-! ### `defaultPhotoManager.Search` -/

/-- The word loop of `Search`: iterate over `strings.Split(q, " ")` with
its 0-based index `num`, trim each word, and stop (`break`) as soon as a
trimmed word is empty or `num > 6`; every surviving word is collected
(the code then wraps it as `%word%` — see `likePat` — when building its
clause). -/
def collectWords : ℕ → List Str → List Str
  | _, [] => []
  | num, word :: rest =>
    let w := goTrim word
    if w = [] ∨ num > 6 then []
    else w :: collectWords (num + 1) rest

/-- The surviving search words of a query. -/
def searchWords (q : Str) : List Str := collectWords 0 (splitChar spaceChar q)

/-- One per-word sub-query:
`SELECT DISTINCT p.* FROM photos p INNER JOIN users u ON u.id = p.owner_id
LEFT JOIN photo_tags pt ... LEFT JOIN tags t ... WHERE
UPPER(p.title) LIKE UPPER($n) OR UPPER(u.name) LIKE UPPER($n) OR t.name LIKE $n`
with the parameter `%w%`.  Title and owner name are compared
case-insensitively, the tag name case-sensitively (no `UPPER` on
`t.name`). -/
def subQuery (db : DBState) (w : Str) : List Photo :=
  db.photos.filter fun p =>
    db.users.any fun u =>
      u.id == p.ownerID &&
        (likeMatch (upperS (likePat w)) (upperS p.title) ||
         likeMatch (upperS (likePat w)) (upperS u.name) ||
         db.photoTags.any fun pt =>
           pt.1 == p.id && db.tags.any fun t => t.1 == pt.2 && likeMatch (likePat w) t.2)

/-- SQL `INTERSECT` over the per-word sub-queries. -/
def intersectAll : List (List Photo) → List Photo
  | [] => []
  | l :: ls => ls.foldl (fun acc x => acc ∩ x) l

/-- The intersected search result set (whose cardinality is the `total`
and which the store then orders and windows for the requested page). -/
def searchResult (db : DBState) (q : Str) : List Photo :=
  intersectAll ((searchWords q).map (subQuery db))

/-- `defaultPhotoManager.Search`: an empty query returns `nil, nil`
before any store access; otherwise a store failure is propagated, and on
success the intersected result set is returned (the store orders it by
votes then creation time and applies the page window). -/
def searchPhotosMgr (db : DBState) (fail : Option Err) (pageNum : ℤ) (q : Str) :
    Option (List Photo) × Option Err :=
  if q = [] then (none, none)
  else
    match fail with
    | some e => (none, some e)
    | none => (some (searchResult db q), none)

/-- Whether `s` starts with `pre`. -/
def startsWithS : Str → Str → Bool
  | [], _ => true
  | _ :: _, [] => false
  | c :: cs, d :: ds => c = d && startsWithS cs ds

/-- Whether `needle` occurs as a contiguous substring of `hay`. -/
def containsSub : Str → Str → Bool
  | [], needle => decide (needle = [])
  | c :: t, needle => startsWithS needle (c :: t) || containsSub t needle

/-- Case-insensitive substring containment — the reading claim C3 gives
to all three match clauses. -/
def containsCI (hay w : Str) : Bool := containsSub (upperS hay) (upperS w)

/-- Modelled from the spec claim C3's words: a token matches a photo iff
the title, the owner's display name, or one of its tag names contains
the token as a *case-insensitive* substring. -/
def specTokenMatchCI (db : DBState) (w : Str) (p : Photo) : Bool :=
  containsCI p.title w ||
    db.users.any (fun u => u.id == p.ownerID && containsCI u.name w) ||
    db.photoTags.any fun pt =>
      pt.1 == p.id && db.tags.any fun t => t.1 == pt.2 && containsCI t.2 w

/-! ### `defaultPhotoManager.All` -/

def votesStr : Str := "votes".toList

def votesKey (p : Photo) : ℤ := p.upVotes - p.downVotes

/-- The single `ORDER BY` key of `All`: `(up_votes - down_votes)` when
`orderBy == "votes"`, else `created_at`. -/
def allOrderKey (orderBy : Str) : Photo → ℤ :=
  if orderBy = votesStr then votesKey else fun p => p.createdAt

/-- A list sorted descending by the given single key. -/
def sortedDescBy (key : Photo → ℤ) (l : List Photo) : Prop :=
  l.Sorted fun a b => key b ≤ key a

/-- The `LIMIT $1 OFFSET $2` page window. -/
def pageWindow (pageNum : ℤ) (l : List Photo) : List Photo :=
  (l.drop (getOffset pageNum).toNat).take 12

/-- The possible result pages of `All(pageNum, orderBy)` over a photos
table: the store may return the page window of any permutation of the
table that is sorted descending on the single `ORDER BY` key (the
relative order of key-ties is not constrained by the query). -/
def allValidResult (orderBy : Str) (table : List Photo) (pageNum : ℤ)
    (res : List Photo) : Prop :=
  ∃ l, table.Perm l ∧ sortedDescBy (allOrderKey orderBy) l ∧ res = pageWindow pageNum l

/-- The ordering claim C6 asserts for `All(page, "votes")`: votes
descending with ties broken by creation time descending. -/
def votesLex (a b : Photo) : Prop :=
  votesKey b < votesKey a ∨ (votesKey a = votesKey b ∧ b.createdAt ≤ a.createdAt)

/-! ### Concrete instances used by witnesses and counterexamples -/

def dbEmpty : DBState := { photos := [], users := [], tags := [], photoTags := [] }

/-- A not-yet-persisted photo (zero ID) carrying one tag. -/
def cPhotoNew : Photo :=
  { id := 0, ownerID := 3, createdAt := 0, title := "t".toList,
    filename := "f".toList, tags := ["x".toList], upVotes := 0, downVotes := 0 }

/-- A not-yet-persisted photo whose tag list normalizes to nothing. -/
def cPhotoBlankTags : Photo :=
  { id := 0, ownerID := 3, createdAt := 0, title := "t".toList,
    filename := "f".toList, tags := [" ".toList], upVotes := 0, downVotes := 0 }

/-- An existing photo whose tag list normalizes to nothing. -/
def cPhotoClear : Photo :=
  { id := 5, ownerID := 3, createdAt := 0, title := "t".toList,
    filename := "f".toList, tags := [" ".toList], upVotes := 0, downVotes := 0 }

def dbTwoTags : DBState :=
  { photos := [], users := [], tags := [(1, "a".toList), (2, "b".toList)],
    photoTags := [(5, 1), (6, 2)] }

def cUserDana : User :=
  { id := 1, name := "Dana".toList, isAuthenticated := true, isAdmin := false,
    voted := fun _ => false }

def cUserAdmin : User :=
  { id := 9, name := "Root".toList, isAuthenticated := true, isAdmin := true,
    voted := fun _ => false }

def cPhotoRed : Photo :=
  { id := 10, ownerID := 1, createdAt := 0, title := "Red Sunset".toList,
    filename := [], tags := [], upVotes := 0, downVotes := 0 }

def dbRed : DBState :=
  { photos := [cPhotoRed], users := [cUserDana],
    tags := [(1, "beach".toList)], photoTags := [(10, 1)] }

def cPhotoAbc : Photo :=
  { id := 1, ownerID := 1, createdAt := 0, title := "abcdef".toList,
    filename := [], tags := [], upVotes := 0, downVotes := 0 }

def cUserZ : User :=
  { id := 1, name := "zz".toList, isAuthenticated := false, isAdmin := false,
    voted := fun _ => false }

def dbAbc : DBState := { photos := [cPhotoAbc], users := [cUserZ], tags := [], photoTags := [] }

/-- A photo whose only C3-relevant match is its lowercase tag. -/
def cPhotoX : Photo :=
  { id := 10, ownerID := 1, createdAt := 0, title := "X".toList,
    filename := [], tags := [], upVotes := 0, downVotes := 0 }

def cUserY : User :=
  { id := 1, name := "Y".toList, isAuthenticated := false, isAdmin := false,
    voted := fun _ => false }

def dbTag : DBState :=
  { photos := [cPhotoX], users := [cUserY],
    tags := [(1, "beach".toList)], photoTags := [(10, 1)] }

/-- Two photos with equal vote score and distinct creation times. -/
def cPOld : Photo :=
  { id := 1, ownerID := 1, createdAt := 0, title := [], filename := [],
    tags := [], upVotes := 0, downVotes := 0 }

def cPNew : Photo :=
  { id := 2, ownerID := 1, createdAt := 1, title := [], filename := [],
    tags := [], upVotes := 0, downVotes := 0 }

/-! ## Helper lemmas -/

theorem canEdit_some (p : Photo) (u : User) :
    canEdit p (some u) = (u.isAuthenticated && (u.isAdmin || p.ownerID == u.id)) := by
  unfold canEdit
  cases h : u.isAuthenticated <;> simp [h]

theorem canVote_some (p : Photo) (u : User) :
    canVote p (some u) = (u.isAuthenticated && !(p.ownerID == u.id) && !u.voted p.id) := by
  unfold canVote
  cases h : u.isAuthenticated <;> cases h2 : p.ownerID == u.id <;> simp [h, h2]

theorem splitChar_ne_nil (sep : Char) (l : Str) : splitChar sep l ≠ [] := by
  induction l with
  | nil => simp [splitChar]
  | cons c cs ih =>
    unfold splitChar
    by_cases h : c = sep
    · simp [h]
    · rw [if_neg h]
      cases hs : splitChar sep cs with
      | nil => exact absurd hs ih
      | cons w ws => simp

theorem no_sep_of_mem_splitChar (sep : Char) (l : Str) :
    ∀ w ∈ splitChar sep l, sep ∉ w := by
  induction l with
  | nil =>
    intro w hw
    simp [splitChar] at hw
    simp [hw]
  | cons c cs ih =>
    intro w hw
    unfold splitChar at hw
    by_cases h : c = sep
    · rw [if_pos h] at hw
      cases hw with
      | head => simp
      | tail _ hmem => exact ih w hmem
    · rw [if_neg h] at hw
      cases hs : splitChar sep cs with
      | nil => exact absurd hs (splitChar_ne_nil sep cs)
      | cons v vs =>
        rw [hs] at hw
        cases hw with
        | head =>
          intro hmem
          cases hmem with
          | head => exact h rfl
          | tail _ hmem2 => exact ih v (hs ▸ List.mem_cons_self v vs) hmem2
        | tail _ hmem => exact ih w (hs ▸ List.mem_cons_of_mem v hmem)

theorem splitChar_single (sep : Char) (w : Str) (h : sep ∉ w) :
    splitChar sep w = [w] := by
  induction w with
  | nil => rfl
  | cons c cs ih =>
    have hc : c ≠ sep := fun hh => h (hh ▸ List.mem_cons_self c cs)
    have hcs : sep ∉ cs := fun hh => h (List.mem_cons_of_mem c hh)
    unfold splitChar
    rw [if_neg hc, ih hcs]

theorem splitChar_append_cons (sep : Char) (w t : Str) (h : sep ∉ w) :
    splitChar sep (w ++ sep :: t) = w :: splitChar sep t := by
  induction w with
  | nil =>
    simp only [List.nil_append]
    rw [splitChar, if_pos rfl]
  | cons c cs ih =>
    have hc : c ≠ sep := fun hh => h (hh ▸ List.mem_cons_self c cs)
    have hcs : sep ∉ cs := fun hh => h (List.mem_cons_of_mem c hh)
    simp only [List.cons_append]
    rw [splitChar, if_neg hc, ih hcs]

theorem splitChar_joinSpace (ws : List Str) (hne : ws ≠ [])
    (h : ∀ w ∈ ws, spaceChar ∉ w) :
    splitChar spaceChar (joinSpace ws) = ws := by
  induction ws with
  | nil => exact absurd rfl hne
  | cons w tail ih =>
    cases tail with
    | nil =>
      show splitChar spaceChar (joinSpace [w]) = [w]
      exact splitChar_single spaceChar w (h w (List.mem_cons_self w []))
    | cons w2 rest =>
      show splitChar spaceChar (w ++ spaceChar :: joinSpace (w2 :: rest)) = _
      rw [splitChar_append_cons spaceChar w _ (h w (List.mem_cons_self w _))]
      rw [ih (by simp) (fun v hv => h v (List.mem_cons_of_mem w hv))]

theorem collectWords_of_seven_le (l : List Str) (n : ℕ) (h : 7 ≤ n) :
    collectWords n l = [] := by
  cases l with
  | nil => rfl
  | cons w rest =>
    unfold collectWords
    rw [if_pos (Or.inr (by omega))]

theorem collectWords_take_seven (l : List Str) (n : ℕ) :
    collectWords n (l.take (7 - n)) = collectWords n l := by
  induction l generalizing n with
  | nil => simp
  | cons w rest ih =>
    by_cases h7 : 7 ≤ n
    · have h0 : 7 - n = 0 := by omega
      rw [h0, List.take_zero, collectWords_of_seven_le [] n h7,
        collectWords_of_seven_le (w :: rest) n h7]
    · have hstep : 7 - n = (7 - (n + 1)) + 1 := by omega
      rw [hstep, List.take_succ_cons]
      unfold collectWords
      by_cases hc : goTrim w = [] ∨ n > 6
      · rw [if_pos hc, if_pos hc]
      · rw [if_neg hc, if_neg hc, ih (n + 1)]

theorem collectWords_length_le (l : List Str) (n : ℕ) :
    (collectWords n l).length ≤ 7 - n := by
  induction l generalizing n with
  | nil => simp [collectWords]
  | cons w rest ih =>
    unfold collectWords
    by_cases hc : goTrim w = [] ∨ n > 6
    · rw [if_pos hc]
      simp
    · rw [if_neg hc]
      have hn : ¬ n > 6 := fun hh => hc (Or.inr hh)
      have := ih (n + 1)
      simp only [List.length_cons]
      omega

theorem mem_intersectAll (x : Photo) (l : List Photo) (ls : List (List Photo)) :
    x ∈ intersectAll (l :: ls) ↔ x ∈ l ∧ ∀ y ∈ ls, x ∈ y := by
  induction ls generalizing l with
  | nil => simp [intersectAll]
  | cons y ys ih =>
    have hstep : intersectAll (l :: y :: ys) = intersectAll ((l ∩ y) :: ys) := rfl
    rw [hstep, ih]
    rw [List.mem_inter_iff]
    simp [and_assoc, List.forall_mem_cons]

theorem mem_subQuery (db : DBState) (w : Str) (p : Photo) :
    p ∈ subQuery db w ↔
      p ∈ db.photos ∧ ∃ u ∈ db.users, u.id = p.ownerID ∧
        (likeMatch (upperS (likePat w)) (upperS p.title) = true ∨
         likeMatch (upperS (likePat w)) (upperS u.name) = true ∨
         ∃ pt ∈ db.photoTags, pt.1 = p.id ∧ ∃ t ∈ db.tags, t.1 = pt.2 ∧
           likeMatch (likePat w) t.2 = true) := by
  unfold subQuery
  rw [List.mem_filter]
  simp [List.any_eq_true, Bool.and_eq_true, Bool.or_eq_true, beq_iff_eq, and_assoc,
    or_assoc]

theorem mem_subQuery_of_owner (db : DBState) (w : Str) (p : Photo)
    (hu : ∃ u ∈ db.users, u.id = p.ownerID) (hp : p ∈ db.photos) :
    p ∈ subQuery db w ↔
      (likeMatch (upperS (likePat w)) (upperS p.title) = true ∨
       (∃ u ∈ db.users, u.id = p.ownerID ∧
         likeMatch (upperS (likePat w)) (upperS u.name) = true) ∨
       (∃ pt ∈ db.photoTags, pt.1 = p.id ∧ ∃ t ∈ db.tags, t.1 = pt.2 ∧
         likeMatch (likePat w) t.2 = true)) := by
  rw [mem_subQuery]
  constructor
  · rintro ⟨-, u, hu1, hu2, h | h | h⟩
    · exact Or.inl h
    · exact Or.inr (Or.inl ⟨u, hu1, hu2, h⟩)
    · exact Or.inr (Or.inr h)
  · rintro (h | ⟨u, hu1, hu2, h⟩ | h)
    · obtain ⟨u, h1, h2⟩ := hu
      exact ⟨hp, u, h1, h2, Or.inl h⟩
    · exact ⟨hp, u, hu1, hu2, Or.inr (Or.inl h)⟩
    · obtain ⟨u, h1, h2⟩ := hu
      exact ⟨hp, u, h1, h2, Or.inr (Or.inr h)⟩

theorem natLog2_spec (fuel : ℕ) : ∀ n : ℕ, 1 ≤ n → n < 2 ^ fuel →
    2 ^ natLog2 fuel n ≤ n ∧ n < 2 ^ (natLog2 fuel n + 1) := by
  induction fuel with
  | zero =>
    intro n h1 h2
    simp at h2
    omega
  | succ fuel ih =>
    intro n h1 h2
    unfold natLog2
    by_cases hn : n < 2
    · rw [if_pos hn]
      constructor
      · simpa using h1
      · simpa using hn
    · rw [if_neg hn]
      have hh1 : 1 ≤ n / 2 := by omega
      have hh2 : n / 2 < 2 ^ fuel := by
        have hp : (2:ℕ) ^ (fuel + 1) = 2 * 2 ^ fuel := by ring
        omega
      obtain ⟨ha, hb⟩ := ih (n / 2) hh1 hh2
      have hp1 : (2:ℕ) ^ (natLog2 fuel (n / 2) + 1) = 2 * 2 ^ natLog2 fuel (n / 2) := by
        ring
      have hp2 : (2:ℕ) ^ (natLog2 fuel (n / 2) + 1 + 1) =
          2 * 2 ^ (natLog2 fuel (n / 2) + 1) := by ring
      constructor
      · rw [hp1]
        omega
      · rw [hp2]
        omega

theorem rhe_bounds (a b : ℕ) (hb : 0 < b) :
    2 * a ≤ 2 * (rhe a b * b) + b ∧ 2 * (rhe a b * b) ≤ 2 * a + b := by
  have hmod : a / b * b + a % b = a := Nat.div_add_mod' a b
  have hlt : a % b < b := Nat.mod_lt a hb
  unfold rhe
  by_cases h1 : 2 * (a % b) < b
  · rw [if_pos h1]
    omega
  · rw [if_neg h1]
    by_cases h2 : b < 2 * (a % b)
    · rw [if_pos h2]
      have hplus : (a / b + 1) * b = a / b * b + b := by ring
      rw [hplus]
      omega
    · rw [if_neg h2]
      by_cases h3 : (a / b) % 2 = 0
      · rw [if_pos h3]
        omega
      · rw [if_neg h3]
        have hplus : (a / b + 1) * b = a / b * b + b := by ring
        rw [hplus]
        omega

theorem rhe_exact (a b : ℕ) (hb : 0 < b) (hd : b ∣ a) : rhe a b * b = a := by
  have hz : a % b = 0 := Nat.mod_eq_zero_of_dvd hd
  unfold rhe
  rw [hz]
  rw [if_pos (by omega)]
  exact Nat.div_mul_cancel hd

theorem qltPow2_iff (a b : ℕ) (hb : 0 < b) (k : ℤ) :
    qltPow2 a b k = true ↔ (a : ℚ) / b < (2 : ℚ) ^ k := by
  have hbq : (0:ℚ) < b := by exact_mod_cast hb
  unfold qltPow2
  by_cases hk : 0 ≤ k
  · rw [if_pos hk, decide_eq_true_eq, div_lt_iff₀ hbq]
    have hz : ((2 ^ k.toNat : ℕ) : ℚ) = (2:ℚ) ^ k := by
      push_cast
      rw [← zpow_natCast (2:ℚ) k.toNat, Int.toNat_of_nonneg hk]
    rw [← hz]
    exact_mod_cast Iff.rfl
  · rw [if_neg hk, decide_eq_true_eq, div_lt_iff₀ hbq]
    have h2m : (0:ℚ) < ((2 ^ (-k).toNat : ℕ) : ℚ) := by positivity
    have hz : (2:ℚ) ^ k * b = (b:ℚ) / ((2 ^ (-k).toNat : ℕ) : ℚ) := by
      rw [eq_div_iff (ne_of_gt h2m)]
      push_cast
      rw [← zpow_natCast (2:ℚ) (-k).toNat, Int.toNat_of_nonneg (by omega : (0:ℤ) ≤ -k)]
      calc (2:ℚ) ^ k * (b:ℚ) * (2:ℚ) ^ (-k)
          = (b:ℚ) * ((2:ℚ) ^ k * (2:ℚ) ^ (-k)) := by ring
        _ = (b:ℚ) * (2:ℚ) ^ (k + -k) := by rw [zpow_add₀ (two_ne_zero)]
        _ = (b:ℚ) := by simp
    rw [hz, lt_div_iff₀ h2m]
    exact_mod_cast Iff.rfl

theorem ratLog2_le (a b : ℕ) (ha1 : 1 ≤ a) (ha64 : a < 2 ^ 64) (hb1 : 1 ≤ b)
    (hb64 : b < 2 ^ 64) : (2:ℚ) ^ ratLog2 a b ≤ (a:ℚ) / b := by
  obtain ⟨haL, _⟩ := natLog2_spec 64 a ha1 ha64
  obtain ⟨_, hbU⟩ := natLog2_spec 64 b hb1 hb64
  have hbq : (0:ℚ) < b := by exact_mod_cast hb1
  have haq : (0:ℚ) < a := by exact_mod_cast ha1
  have hq : (2:ℚ) ^ ((natLog2 64 a : ℤ) - (natLog2 64 b : ℤ) - 1) < (a:ℚ) / b := by
    have h1 : ((2 ^ natLog2 64 a : ℕ) : ℚ) ≤ (a:ℚ) := by exact_mod_cast haL
    have h2 : (b:ℚ) < ((2 ^ (natLog2 64 b + 1) : ℕ) : ℚ) := by exact_mod_cast hbU
    have hpos2 : (0:ℚ) < ((2 ^ (natLog2 64 b + 1) : ℕ) : ℚ) := by positivity
    have key : ((2 ^ natLog2 64 a : ℕ) : ℚ) / ((2 ^ (natLog2 64 b + 1) : ℕ) : ℚ) <
        (a:ℚ) / b := by
      rw [div_lt_div_iff₀ hpos2 hbq]
      calc ((2 ^ natLog2 64 a : ℕ) : ℚ) * b ≤ (a:ℚ) * b :=
            mul_le_mul_of_nonneg_right h1 (le_of_lt hbq)
        _ < (a:ℚ) * ((2 ^ (natLog2 64 b + 1) : ℕ) : ℚ) :=
            mul_lt_mul_of_pos_left h2 haq
    have hform : (2:ℚ) ^ ((natLog2 64 a : ℤ) - (natLog2 64 b : ℤ) - 1) =
        ((2 ^ natLog2 64 a : ℕ) : ℚ) / ((2 ^ (natLog2 64 b + 1) : ℕ) : ℚ) := by
      push_cast
      rw [← zpow_natCast (2:ℚ) (natLog2 64 a), ← zpow_natCast (2:ℚ) (natLog2 64 b + 1)]
      rw [← zpow_sub₀ (two_ne_zero)]
      congr 1
      push_cast
      ring
    rw [hform]
    exact key
  unfold ratLog2
  by_cases hcase : qltPow2 a b ((natLog2 64 a : ℤ) - (natLog2 64 b : ℤ)) = true
  · rw [if_pos hcase]
    exact le_of_lt hq
  · rw [if_neg hcase]
    exact not_lt.mp (fun hlt => hcase ((qltPow2_iff a b (by omega) _).mpr hlt))

theorem ratLog2_lt (a b : ℕ) (ha1 : 1 ≤ a) (ha64 : a < 2 ^ 64) (hb1 : 1 ≤ b)
    (hb64 : b < 2 ^ 64) (m : ℤ) (h : (a:ℚ) / b < (2:ℚ) ^ (m + 1)) :
    ratLog2 a b ≤ m := by
  have hle := ratLog2_le a b ha1 ha64 hb1 hb64
  have hlt : (2:ℚ) ^ ratLog2 a b < (2:ℚ) ^ (m + 1) := lt_of_le_of_lt hle h
  have := (zpow_lt_zpow_iff_right₀ (by norm_num : (1:ℚ) < 2)).mp hlt
  omega

theorem rhe_one (a : ℕ) : rhe a 1 = a := by
  unfold rhe
  rw [Nat.mod_one]
  simp

theorem stage1_exact (n : ℕ) (h1 : 1 ≤ n) (h53 : n ≤ 2 ^ 53) :
    12 * (div12Frac (floatOfTotal n)).1 = n * (div12Frac (floatOfTotal n)).2 ∧
    1 ≤ (div12Frac (floatOfTotal n)).1 ∧ 1 ≤ (div12Frac (floatOfTotal n)).2 ∧
    (div12Frac (floatOfTotal n)).1 < 2 ^ 64 ∧ (div12Frac (floatOfTotal n)).2 < 2 ^ 64 := by
  have hlit : (2:ℕ) ^ 53 < 2 ^ 64 := by norm_num
  have h64 : n < 2 ^ 64 := by omega
  obtain ⟨hL, hU⟩ := natLog2_spec 64 n h1 h64
  have hla53 : natLog2 64 n ≤ 53 := by
    by_contra hcon
    push_neg at hcon
    have hmono : (2:ℕ) ^ 54 ≤ 2 ^ natLog2 64 n :=
      Nat.pow_le_pow_right (by norm_num) (by omega)
    have h54 : (2:ℕ) ^ 53 < 2 ^ 54 := by norm_num
    omega
  have hRL : ratLog2 n 1 = (natLog2 64 n : ℤ) := by
    have hz : natLog2 64 1 = 0 := rfl
    have hcond : qltPow2 n 1 ((natLog2 64 n : ℤ) - (natLog2 64 1 : ℤ)) = false := by
      rw [hz]
      unfold qltPow2
      rw [if_pos (by omega : (0:ℤ) ≤ (natLog2 64 n : ℤ) - ((0:ℕ):ℤ))]
      simp only [decide_eq_false_iff_not, not_lt]
      have ht : ((natLog2 64 n : ℤ) - ((0:ℕ):ℤ)).toNat = natLog2 64 n := by omega
      rw [ht]
      omega
    unfold ratLog2
    rw [hcond]
    simp [hz]
  by_cases h52 : natLog2 64 n = 52
  · have he : ratLog2 n 1 - 52 = 0 := by rw [hRL, h52]; norm_num
    have key : floatOfTotal n = (n, 0) := by
      unfold floatOfTotal floatDivM
      rw [he]
      simp [rhe_one]
    rw [key]
    unfold div12Frac
    rw [if_pos (by norm_num : (0:ℤ) ≤ ((n, (0:ℤ)).2))]
    dsimp only
    refine ⟨by simp [Nat.mul_comm], by simpa using h1, by norm_num, ?_, by norm_num⟩
    simpa using lt_of_le_of_lt h53 hlit
  · by_cases h53e : natLog2 64 n = 53
    · have hn : n = 2 ^ 53 := by
        rw [h53e] at hL
        omega
      subst hn
      decide
    · have hla51 : natLog2 64 n ≤ 51 := by omega
      have ht : (-((natLog2 64 n : ℤ) - 52)).toNat = 52 - natLog2 64 n := by omega
      have key : floatOfTotal n =
          (n * 2 ^ (52 - natLog2 64 n), (natLog2 64 n : ℤ) - 52) := by
        unfold floatOfTotal floatDivM
        rw [hRL]
        rw [if_neg (by omega : ¬ (0:ℤ) ≤ (natLog2 64 n : ℤ) - 52)]
        rw [ht, rhe_one]
      rw [key]
      unfold div12Frac
      rw [if_neg (by omega : ¬ (0:ℤ) ≤ ((n * 2 ^ (52 - natLog2 64 n),
        (natLog2 64 n : ℤ) - 52)).2)]
      have hcomb : (2:ℕ) ^ (natLog2 64 n + 1) * 2 ^ (52 - natLog2 64 n) = 2 ^ 53 := by
        rw [← pow_add]
        congr 1
        omega
      have hm52 : 52 - natLog2 64 n ≤ 52 := by omega
      have hb64 : 12 * 2 ^ (52 - natLog2 64 n) < 2 ^ 64 := by
        have hple : (2:ℕ) ^ (52 - natLog2 64 n) ≤ 2 ^ 52 :=
          Nat.pow_le_pow_right (by norm_num) hm52
        have : (12:ℕ) * 2 ^ 52 < 2 ^ 64 := by norm_num
        omega
      have ha64 : n * 2 ^ (52 - natLog2 64 n) < 2 ^ 64 := by
        have hstep : n * 2 ^ (52 - natLog2 64 n) <
            2 ^ (natLog2 64 n + 1) * 2 ^ (52 - natLog2 64 n) :=
          Nat.mul_lt_mul_of_pos_right hU (Nat.pos_pow_of_pos _ (by norm_num))
        rw [hcomb] at hstep
        omega
      have hpos : 0 < 2 ^ (52 - natLog2 64 n) := Nat.pos_pow_of_pos _ (by norm_num)
      dsimp only
      rw [ht]
      refine ⟨by ring, ?_, by omega, ha64, hb64⟩
      exact Nat.one_le_iff_ne_zero.mpr (by positivity)

theorem ceilFloat_floatDivM (a2 b2 n : ℕ) (h12 : 12 * a2 = n * b2)
    (ha1 : 1 ≤ a2) (hb1 : 1 ≤ b2) (ha64 : a2 < 2 ^ 64) (hb64 : b2 < 2 ^ 64)
    (hn1 : 1 ≤ n) (hn53 : n ≤ 2 ^ 53) :
    ceilFloat (floatDivM a2 b2) = (n + 11) / 12 := by
  have hbq : (0:ℚ) < b2 := by exact_mod_cast hb1
  have hq : a2 * 12 = n * b2 := by omega
  have hval : (a2:ℚ) / b2 = (n:ℚ) / 12 := by
    rw [div_eq_div_iff (ne_of_gt hbq) (by norm_num : (12:ℚ) ≠ 0)]
    exact_mod_cast hq
  have hlt50 : (a2:ℚ) / b2 < (2:ℚ) ^ ((49:ℤ) + 1) := by
    have h50 : (2:ℚ) ^ ((49:ℤ) + 1) = ((2 ^ 50 : ℕ) : ℚ) := by norm_num
    rw [hval, h50, div_lt_iff₀ (by norm_num : (0:ℚ) < 12)]
    have hn : n < 2 ^ 50 * 12 := by
      have hl : (2:ℕ) ^ 53 < 2 ^ 50 * 12 := by norm_num
      omega
    exact_mod_cast hn
  have hL49 : ratLog2 a2 b2 ≤ 49 := ratLog2_lt a2 b2 ha1 ha64 hb1 hb64 49 hlt50
  have hneg : ¬ (0:ℤ) ≤ ratLog2 a2 b2 - 52 := by omega
  have hkey : floatDivM a2 b2 =
      (rhe (a2 * 2 ^ (-(ratLog2 a2 b2 - 52)).toNat) b2, ratLog2 a2 b2 - 52) := by
    unfold floatDivM
    rw [if_neg hneg]
  rw [hkey]
  unfold ceilFloat
  dsimp only
  rw [if_neg hneg]
  have hs3 : 3 ≤ (-(ratLog2 a2 b2 - 52)).toNat := by omega
  have h8 : (8:ℕ) ≤ 2 ^ (-(ratLog2 a2 b2 - 52)).toNat :=
    le_trans (by norm_num : (8:ℕ) ≤ 2 ^ 3) (Nat.pow_le_pow_right (by norm_num) hs3)
  obtain ⟨hrb1, hrb2⟩ :=
    rhe_bounds (a2 * 2 ^ (-(ratLog2 a2 b2 - 52)).toNat) b2 (by omega)
  by_cases hr : n % 12 = 0
  · obtain ⟨k, hk⟩ := Nat.dvd_of_mod_eq_zero hr
    have ha2k : a2 = k * b2 := by
      have h2 : 12 * a2 = 12 * (k * b2) := by rw [h12, hk]; ring
      omega
    have hdvd : b2 ∣ a2 * 2 ^ (-(ratLog2 a2 b2 - 52)).toNat :=
      ⟨k * 2 ^ (-(ratLog2 a2 b2 - 52)).toNat, by rw [ha2k]; ring⟩
    have hMe : rhe (a2 * 2 ^ (-(ratLog2 a2 b2 - 52)).toNat) b2 * b2 =
        (k * 2 ^ (-(ratLog2 a2 b2 - 52)).toNat) * b2 := by
      rw [rhe_exact _ _ (by omega) hdvd, ha2k]
      ring
    have hMval : rhe (a2 * 2 ^ (-(ratLog2 a2 b2 - 52)).toNat) b2 =
        k * 2 ^ (-(ratLog2 a2 b2 - 52)).toNat :=
      Nat.eq_of_mul_eq_mul_right (by omega) hMe
    rw [hMval, hk]
    have hdiv1 : (k * 2 ^ (-(ratLog2 a2 b2 - 52)).toNat +
        2 ^ (-(ratLog2 a2 b2 - 52)).toNat - 1) /
        2 ^ (-(ratLog2 a2 b2 - 52)).toNat = k := by
      apply Nat.div_eq_of_lt_le
      · omega
      · have hx : (k + 1) * 2 ^ (-(ratLog2 a2 b2 - 52)).toNat =
            k * 2 ^ (-(ratLog2 a2 b2 - 52)).toNat +
            2 ^ (-(ratLog2 a2 b2 - 52)).toNat := by ring
        omega
    rw [hdiv1]
    omega
  · have key1 : b2 * (n * 2 ^ (-(ratLog2 a2 b2 - 52)).toNat) ≤
        b2 * (12 * rhe (a2 * 2 ^ (-(ratLog2 a2 b2 - 52)).toNat) b2 + 6) := by
      have e1 : b2 * (n * 2 ^ (-(ratLog2 a2 b2 - 52)).toNat) =
          6 * (2 * (a2 * 2 ^ (-(ratLog2 a2 b2 - 52)).toNat)) := by
        calc b2 * (n * 2 ^ (-(ratLog2 a2 b2 - 52)).toNat)
            = (n * b2) * 2 ^ (-(ratLog2 a2 b2 - 52)).toNat := by ring
          _ = (12 * a2) * 2 ^ (-(ratLog2 a2 b2 - 52)).toNat := by rw [h12]
          _ = 6 * (2 * (a2 * 2 ^ (-(ratLog2 a2 b2 - 52)).toNat)) := by ring
      have e2 : b2 * (12 * rhe (a2 * 2 ^ (-(ratLog2 a2 b2 - 52)).toNat) b2 + 6) =
          6 * (2 * (rhe (a2 * 2 ^ (-(ratLog2 a2 b2 - 52)).toNat) b2 * b2)) +
            6 * b2 := by ring
      rw [e1, e2]
      omega
    have hn2s : n * 2 ^ (-(ratLog2 a2 b2 - 52)).toNat ≤
        12 * rhe (a2 * 2 ^ (-(ratLog2 a2 b2 - 52)).toNat) b2 + 6 :=
      Nat.le_of_mul_le_mul_left key1 (by omega)
    have key2 : b2 * (12 * rhe (a2 * 2 ^ (-(ratLog2 a2 b2 - 52)).toNat) b2) ≤
        b2 * (n * 2 ^ (-(ratLog2 a2 b2 - 52)).toNat + 6) := by
      have e1 : b2 * (12 * rhe (a2 * 2 ^ (-(ratLog2 a2 b2 - 52)).toNat) b2) =
          6 * (2 * (rhe (a2 * 2 ^ (-(ratLog2 a2 b2 - 52)).toNat) b2 * b2)) := by
        ring
      have e2 : b2 * (n * 2 ^ (-(ratLog2 a2 b2 - 52)).toNat + 6) =
          6 * (2 * (a2 * 2 ^ (-(ratLog2 a2 b2 - 52)).toNat)) + 6 * b2 := by
        calc b2 * (n * 2 ^ (-(ratLog2 a2 b2 - 52)).toNat + 6)
            = (n * b2) * 2 ^ (-(ratLog2 a2 b2 - 52)).toNat + 6 * b2 := by ring
          _ = (12 * a2) * 2 ^ (-(ratLog2 a2 b2 - 52)).toNat + 6 * b2 := by rw [h12]
          _ = 6 * (2 * (a2 * 2 ^ (-(ratLog2 a2 b2 - 52)).toNat)) + 6 * b2 := by
              ring
      rw [e1, e2]
      omega
    have hM12 : 12 * rhe (a2 * 2 ^ (-(ratLog2 a2 b2 - 52)).toNat) b2 ≤
        n * 2 ^ (-(ratLog2 a2 b2 - 52)).toNat + 6 :=
      Nat.le_of_mul_le_mul_left key2 (by omega)
    have hsplit : n * 2 ^ (-(ratLog2 a2 b2 - 52)).toNat =
        12 * (n / 12 * 2 ^ (-(ratLog2 a2 b2 - 52)).toNat) +
          n % 12 * 2 ^ (-(ratLog2 a2 b2 - 52)).toNat := by
      conv_lhs => rw [← Nat.div_add_mod n 12]
      ring
    have hrs_lo : 2 ^ (-(ratLog2 a2 b2 - 52)).toNat ≤
        n % 12 * 2 ^ (-(ratLog2 a2 b2 - 52)).toNat :=
      Nat.le_mul_of_pos_left _ (by omega)
    have hrs_hi : n % 12 * 2 ^ (-(ratLog2 a2 b2 - 52)).toNat ≤
        11 * 2 ^ (-(ratLog2 a2 b2 - 52)).toNat :=
      Nat.mul_le_mul_right _ (by omega)
    have hlowM : n / 12 * 2 ^ (-(ratLog2 a2 b2 - 52)).toNat <
        rhe (a2 * 2 ^ (-(ratLog2 a2 b2 - 52)).toNat) b2 := by
      omega
    have hupM : rhe (a2 * 2 ^ (-(ratLog2 a2 b2 - 52)).toNat) b2 <
        (n / 12 + 1) * 2 ^ (-(ratLog2 a2 b2 - 52)).toNat := by
      have hx : (n / 12 + 1) * 2 ^ (-(ratLog2 a2 b2 - 52)).toNat =
          n / 12 * 2 ^ (-(ratLog2 a2 b2 - 52)).toNat +
            2 ^ (-(ratLog2 a2 b2 - 52)).toNat := by ring
      omega
    have hdiv1 : (rhe (a2 * 2 ^ (-(ratLog2 a2 b2 - 52)).toNat) b2 +
        2 ^ (-(ratLog2 a2 b2 - 52)).toNat - 1) /
        2 ^ (-(ratLog2 a2 b2 - 52)).toNat = n / 12 + 1 := by
      apply Nat.div_eq_of_lt_le
      · have hx : (n / 12 + 1) * 2 ^ (-(ratLog2 a2 b2 - 52)).toNat =
            n / 12 * 2 ^ (-(ratLog2 a2 b2 - 52)).toNat +
              2 ^ (-(ratLog2 a2 b2 - 52)).toNat := by ring
        omega
      · have hx : (n / 12 + 1 + 1) * 2 ^ (-(ratLog2 a2 b2 - 52)).toNat =
            n / 12 * 2 ^ (-(ratLog2 a2 b2 - 52)).toNat +
              2 ^ (-(ratLog2 a2 b2 - 52)).toNat +
              2 ^ (-(ratLog2 a2 b2 - 52)).toNat := by ring
        omega
    rw [hdiv1]
    omega

/-! ## Claims -/

/-- C1 (code bug in `Insert`): the spec demands that when the tag
synchronization step fails the whole insert is rolled back and the photo
row is not persisted.  The code opens the transaction `t` but issues
`dbMap.Insert` and `UpdateTags` on the global `dbMap` handle, so both
auto-commit outside `t`: on a failing tag step `Insert` returns the
error, yet the freshly inserted photo row (assigned ID 7 here) remains
in the store and the state differs from the pre-call state. -/
theorem insert_tag_failure_leaves_photo_row :
    (insertPhotoMgr true 5 7 cPhotoNew dbEmpty).2 = some storeErr ∧
    (insertPhotoMgr true 5 7 cPhotoNew dbEmpty).1.photos.map Photo.id = [7] ∧
    (insertPhotoMgr true 5 7 cPhotoNew dbEmpty).1.photos ≠ dbEmpty.photos := by
  refine ⟨rfl, rfl, ?_⟩
  decide

/-- C2, counterexample: `Search` does not truncate to six tokens — the
loop breaks only when the 0-based index exceeds 6, so the seventh token
survives: the seven-token query `"a b c d e f g"` produces seven search
words and, over a store whose only photo has title `"abcdef"`, returns a
different result set than its first six tokens do (the seventh word
`"g"` matches nothing, emptying the intersection). -/
theorem search_seven_tokens_not_truncated :
    searchResult dbAbc ("a b c d e f g".toList) ≠
      searchResult dbAbc ("a b c d e f".toList) ∧
    (searchWords ("a b c d e f g".toList)).length = 7 := by
  exact ⟨by decide, by decide⟩

/-- C2 as amended: `Search` splits its query on single spaces, stops at
the first empty token, and keeps at most the first seven tokens (0-based
indices 0–6): every token beyond the seventh is silently ignored — not
an error — and every query behaves identically to the query formed from
just its first seven space-separated components. -/
theorem search_token_cap_is_seven (q : Str) :
    (searchWords q).length ≤ 7 ∧
    searchWords q = searchWords (joinSpace ((splitChar spaceChar q).take 7)) := by
  constructor
  · simpa using collectWords_length_le (splitChar spaceChar q) 0
  · unfold searchWords
    have hne : (splitChar spaceChar q).take 7 ≠ [] := by
      cases hs : splitChar spaceChar q with
      | nil => exact absurd hs (splitChar_ne_nil spaceChar q)
      | cons w ws => simp
    have hsep : ∀ w ∈ (splitChar spaceChar q).take 7, spaceChar ∉ w :=
      fun w hw => no_sep_of_mem_splitChar spaceChar q w (List.mem_of_mem_take hw)
    rw [splitChar_joinSpace _ hne hsep]
    exact (collectWords_take_seven (splitChar spaceChar q) 0).symm

/-- C3, counterexample: the tag-name clause of `Search` has no `UPPER`
(`t.name LIKE $n`), so tag matching is case-sensitive: for the query
`"BEACH"` against a photo tagged `"beach"` (title `"X"`, owner `"Y"`),
the claim's all-fields-case-insensitive reading says the photo is in the
result set, but `Search` returns an empty intersection. -/
theorem search_tag_match_case_sensitive :
    (cPhotoX ∈ dbTag.photos ∧
      ∀ w ∈ searchWords ("BEACH".toList), specTokenMatchCI dbTag w cPhotoX = true) ∧
    cPhotoX ∉ searchResult dbTag ("BEACH".toList) := by
  exact ⟨by decide, by decide⟩

/-- C3 as amended: over a store in which every photo's owner row exists,
and for every query with at least one surviving token, a photo is in
`Search`'s intersected result set iff for every surviving token the
wildcard-wrapped pattern `%token%` LIKE-matches the photo's title
case-insensitively, or its owner's display name case-insensitively, or
one of its tag names **case-sensitively** (AND across tokens, OR across
the three fields; for tokens without SQL wildcards LIKE-matching
`%token%` is substring containment). -/
theorem search_intersection_semantics (db : DBState) (q : Str) (p : Photo)
    (howner : ∀ ph ∈ db.photos, ∃ u ∈ db.users, u.id = ph.ownerID)
    (hne : searchWords q ≠ []) :
    p ∈ searchResult db q ↔
      p ∈ db.photos ∧ ∀ w ∈ searchWords q,
        likeMatch (upperS (likePat w)) (upperS p.title) = true ∨
        (∃ u ∈ db.users, u.id = p.ownerID ∧
          likeMatch (upperS (likePat w)) (upperS u.name) = true) ∨
        (∃ pt ∈ db.photoTags, pt.1 = p.id ∧ ∃ t ∈ db.tags, t.1 = pt.2 ∧
          likeMatch (likePat w) t.2 = true) := by
  unfold searchResult
  cases hw : searchWords q with
  | nil => exact absurd hw hne
  | cons w ws =>
    rw [List.map_cons, mem_intersectAll]
    constructor
    · rintro ⟨hhead, htail⟩
      have hp : p ∈ db.photos := (mem_subQuery db w p).mp hhead |>.1
      have hu : ∃ u ∈ db.users, u.id = p.ownerID := howner p hp
      refine ⟨hp, ?_⟩
      intro v hv
      cases hv with
      | head =>
        exact (mem_subQuery_of_owner db w p hu hp).mp hhead
      | tail _ hmem =>
        exact (mem_subQuery_of_owner db v p hu hp).mp
          (htail (subQuery db v) (List.mem_map_of_mem (subQuery db) hmem))
    · rintro ⟨hp, hall⟩
      have hu : ∃ u ∈ db.users, u.id = p.ownerID := howner p hp
      refine ⟨(mem_subQuery_of_owner db w p hu hp).mpr
        (hall w (List.mem_cons_self w ws)), ?_⟩
      intro y hy
      obtain ⟨v, hv, rfl⟩ := List.mem_map.mp hy
      exact (mem_subQuery_of_owner db v p hu hp).mpr
        (hall v (List.mem_cons_of_mem w hv))

/-- Witness for C3: the photo titled "Red Sunset", tagged "beach", owned
by "Dana" is returned by `Search("red beach")` and not by
`Search("red mountain")`. -/
theorem search_intersection_semantics_witness :
    cPhotoRed ∈ searchResult dbRed ("red beach".toList) ∧
    cPhotoRed ∉ searchResult dbRed ("red mountain".toList) := by
  constructor
  · exact (search_intersection_semantics dbRed ("red beach".toList) cPhotoRed
      (by decide) (by decide)).mpr (by decide)
  · intro hmem
    exact absurd ((search_intersection_semantics dbRed ("red mountain".toList)
      cPhotoRed (by decide) (by decide)).mp hmem) (by decide)

/-- C4: the derived permission triple satisfies, for every photo and
every possibly-absent caller: `edit` (and `delete`, which equals `edit`)
holds iff the caller is authenticated and is an admin or owns the photo;
`vote` holds iff the caller is authenticated, does not own the photo and
has not voted on it; in particular an unauthenticated (absent) caller
gets all-false, the owner gets edit/delete but never vote, and an
authenticated admin on another's photo gets edit/delete and
vote-iff-not-already-voted. -/
theorem permissions_characterization (p : Photo) (user : Option User) :
    (canEdit p user = true ↔
      ∃ u, user = some u ∧ u.isAuthenticated = true ∧
        (u.isAdmin = true ∨ p.ownerID = u.id)) ∧
    canDelete p user = canEdit p user ∧
    (canVote p user = true ↔
      ∃ u, user = some u ∧ u.isAuthenticated = true ∧ p.ownerID ≠ u.id ∧
        u.voted p.id = false) ∧
    (canEdit p none = false ∧ canDelete p none = false ∧ canVote p none = false) ∧
    (∀ u : User, u.isAuthenticated = true → p.ownerID = u.id →
      canEdit p (some u) = true ∧ canDelete p (some u) = true ∧
        canVote p (some u) = false) ∧
    (∀ u : User, u.isAuthenticated = true → u.isAdmin = true → p.ownerID ≠ u.id →
      canEdit p (some u) = true ∧ canDelete p (some u) = true ∧
        canVote p (some u) = !u.voted p.id) := by
  refine ⟨?_, rfl, ?_, ⟨rfl, rfl, rfl⟩, ?_, ?_⟩
  · cases user with
    | none => simp [canEdit]
    | some u => simp [canEdit_some, Bool.and_eq_true, Bool.or_eq_true, beq_iff_eq]
  · cases user with
    | none => simp [canVote]
    | some u =>
      simp [canVote_some, Bool.and_eq_true, Bool.not_eq_true', beq_iff_eq, and_assoc]
  · intro u hauth hown
    have hbe : (p.ownerID == u.id) = true := beq_iff_eq.mpr hown
    refine ⟨?_, ?_, ?_⟩ <;> simp [canEdit_some, canVote_some, canDelete, hauth, hbe]
  · intro u hauth hadm hown
    have hbe : (p.ownerID == u.id) = false := beq_eq_false_iff_ne.mpr hown
    refine ⟨?_, ?_, ?_⟩ <;> simp [canEdit_some, canVote_some, canDelete, hauth, hadm, hbe]

/-- Witness for C4: the admin (not owner, never voted) can edit, delete
and vote on Dana's photo; Dana, the authenticated owner, can edit but
not vote; an absent caller cannot vote. -/
theorem permissions_characterization_witness :
    canEdit cPhotoRed (some cUserAdmin) = true ∧
    canDelete cPhotoRed (some cUserAdmin) = true ∧
    canVote cPhotoRed (some cUserAdmin) = true ∧
    canEdit cPhotoRed (some cUserDana) = true ∧
    canVote cPhotoRed (some cUserDana) = false ∧
    canVote cPhotoRed none = false := by
  have hadm := (permissions_characterization cPhotoRed (some cUserAdmin)).2.2.2.2.2
    cUserAdmin (by decide) (by decide) (by decide)
  have hown := (permissions_characterization cPhotoRed (some cUserDana)).2.2.2.2.1
    cUserDana (by decide) (by decide)
  have hnone := (permissions_characterization cPhotoRed none).2.2.2.1
  exact ⟨hadm.1, hadm.2.1, hadm.2.2.trans (by decide), hown.1, hown.2.2, hnone.2.2⟩

/-- C5, counterexample: `NewPhotoList` computes the page count in
`float64`, and for `total = 12 * 2^55 + 1` the int64-to-double
conversion rounds the total down to `12 * 2^55`, so the computed page
count is `2^55` while `ceil(total/12) = 2^55 + 1`: the claimed equation
`numPages(total) = ceil(total/12)` fails for this total (`(total+11)/12`
is the exact ceiling). -/
theorem numPages_float_rounding_cx :
    numPages 432345564227567617 ≠ (432345564227567617 + 11) / 12 := by decide

/-- C5 as amended: for every total of at most `2^53` (the range in which
binary64 arithmetic on the total is exact; beyond it the float64
computation can lose the +1, see the counterexample), the page count
equals `ceil(total/12)`, written `(total + 11) / 12`, and is zero
exactly when the total is zero; and for every page number whose
`(pageNum - 1) * 12` fits in an `int64` (the multiplication is Go
`int64` arithmetic, which wraps beyond `±2^63`), the listing offset
equals `(pageNum - 1) * 12` — no lower bound is enforced, `pageNum ≤ 0`
passes through as a zero or negative offset — and `offset(1) = 0`. -/
theorem pagination_arithmetic (total : ℕ) (h : total ≤ 2 ^ 53) :
    numPages total = (total + 11) / 12 ∧
    (numPages total = 0 ↔ total = 0) ∧
    (∀ pageNum : ℤ, -(2 ^ 63) ≤ (pageNum - 1) * 12 → (pageNum - 1) * 12 < 2 ^ 63 →
      getOffset pageNum = (pageNum - 1) * 12) ∧
    getOffset 1 = 0 := by
  have hmain : numPages total = (total + 11) / 12 := by
    by_cases h0 : total = 0
    · subst h0
      rfl
    · have h1 : 1 ≤ total := by omega
      unfold numPages
      rw [if_neg h0]
      obtain ⟨e12, ea1, eb1, ea64, eb64⟩ := stage1_exact total h1 h
      exact ceilFloat_floatDivM _ _ total e12 ea1 eb1 ea64 eb64 h1 h
  refine ⟨hmain, ?_, ?_, by decide⟩
  · rw [hmain]
    omega
  · intro pageNum hlo hhi
    unfold getOffset wrap64 PageSize
    omega

/-- Witness for C5: `numPages 25 = 3 = ceil(25/12)` and the offsets of
pages 1 and 3. -/
theorem pagination_arithmetic_witness :
    numPages 25 = 3 ∧ getOffset 1 = 0 ∧ getOffset 3 = 24 := by
  have h := pagination_arithmetic 25 (by norm_num)
  exact ⟨h.1.trans (by norm_num), h.2.2.2,
    (h.2.2.1 3 (by norm_num) (by norm_num)).trans (by norm_num)⟩

/-- C6, counterexample: `All(1, "votes")` may return two photos of equal
vote score in an order that violates the claimed creation-time
tie-break — the single-key `ORDER BY (up_votes - down_votes) DESC` of
`All` does not constrain ties, so the older photo may precede the newer
one. -/
theorem all_votes_lacks_created_tiebreak :
    allValidResult votesStr [cPOld, cPNew] 1 [cPOld, cPNew] ∧
    ¬ List.Sorted votesLex [cPOld, cPNew] := by
  constructor
  · exact ⟨[cPOld, cPNew], List.Perm.refl _,
      by simp [sortedDescBy, allOrderKey, List.sorted_cons, votesKey, cPOld, cPNew], rfl⟩
  · intro h
    have h1 := (List.pairwise_cons.mp h).1 cPNew (by simp)
    simp [votesLex, votesKey, cPOld, cPNew] at h1

/-- C6 as amended: every result page of `All(page, orderBy)` is sorted
descending by `(upVotes - downVotes)` when `orderBy = "votes"` and by
creation time for every other `orderBy` (including `""`); no tie-break
on the single sort key is guaranteed. -/
theorem all_single_key_ordering (orderBy : Str) (table : List Photo) (pageNum : ℤ)
    (res : List Photo) (h : allValidResult orderBy table pageNum res) :
    (orderBy = votesStr → sortedDescBy votesKey res) ∧
    (orderBy ≠ votesStr → sortedDescBy (fun p => p.createdAt) res) := by
  obtain ⟨l, _hp, hs, rfl⟩ := h
  have hsub : List.Sublist (pageWindow pageNum l) l := by
    unfold pageWindow
    exact List.Sublist.trans (List.take_sublist _ _) (List.drop_sublist _ _)
  constructor
  · intro hv
    have hk : allOrderKey orderBy = votesKey := by simp [allOrderKey, hv]
    exact List.Pairwise.sublist hsub (hk ▸ hs)
  · intro hv
    have hk : allOrderKey orderBy = fun p => p.createdAt := by
      simp [allOrderKey, if_neg hv]
    exact List.Pairwise.sublist hsub (hk ▸ hs)

/-- Witness for C6: a one-photo page of `All(1, "")` is sorted by
creation time. -/
theorem all_single_key_ordering_witness :
    sortedDescBy (fun p => p.createdAt) [cPOld] := by
  have h := all_single_key_ordering [] [cPOld] 1 [cPOld]
    ⟨[cPOld], List.Perm.refl _, by simp [sortedDescBy], rfl⟩
  exact h.2 (by decide)

/-- C7: for an ID matching no photo row, `Get` and `GetDetail` (with no
store failure) return the not-found signal `nil, nil` — no error — while
an injected store failure is propagated as an error by both, a distinct
outcome. -/
theorem get_not_found_vs_store_failure (db : DBState) (photoID : ℤ)
    (tagFail : Option Err) (user : Option User) (e : Err)
    (h : ∀ p ∈ db.photos, p.id ≠ photoID) :
    getPhotoMgr db none photoID = (none, none) ∧
    getDetailMgr db none tagFail photoID user = (none, none) ∧
    (getPhotoMgr db (some e) photoID).2 = some e ∧
    (getDetailMgr db (some e) tagFail photoID user).2 = some e := by
  have hf : db.photos.find? (fun p => p.id == photoID) = none := by
    apply List.find?_eq_none.mpr
    intro p hp
    simpa using h p hp
  refine ⟨?_, ?_, rfl, rfl⟩
  · simp [getPhotoMgr, dbMapGetPhoto, hf]
  · simp [getDetailMgr, dbSelectDetailRow, hf]

/-- Witness for C7: ID 99 is absent from the one-photo store. -/
theorem get_not_found_vs_store_failure_witness :
    getPhotoMgr dbRed none 99 = (none, none) ∧
    getDetailMgr dbRed none none 99 none = (none, none) ∧
    (getPhotoMgr dbRed (some storeErr) 99).2 = some storeErr ∧
    (getDetailMgr dbRed (some storeErr) none 99 none).2 = some storeErr :=
  get_not_found_vs_store_failure dbRed 99 none none storeErr (by decide)

/-- C8: `Search` returns `nil, nil` — no result and no error — for the
empty query string, before touching the store, whatever the page number
and whatever the store would do. -/
theorem search_empty_query_returns_nothing (db : DBState) (fail : Option Err)
    (pageNum : ℤ) :
    searchPhotosMgr db fail pageNum [] = (none, none) := rfl

/-- C9: for an existing photo (non-zero ID) whose tag list normalizes to
nothing, `UpdateTags` takes the clearing path: afterwards no association
for that photo ID remains, every other photo's associations are exactly
as before, and the photos, tags and users tables are untouched. -/
theorem updateTags_clearing (photo : Photo) (db : DBState)
    (hid : photo.id ≠ 0) (hnorm : normalizeTags photo.tags = []) :
    (∀ a ∈ (updateTags photo db).photoTags, a.1 ≠ photo.id) ∧
    (∀ a, a.1 ≠ photo.id → (a ∈ (updateTags photo db).photoTags ↔ a ∈ db.photoTags)) ∧
    (updateTags photo db).photos = db.photos ∧
    (updateTags photo db).tags = db.tags ∧
    (updateTags photo db).users = db.users := by
  have hop : updateTagsOp photo = TagOp.clear photo.id := by
    unfold updateTagsOp
    rw [if_pos ⟨hnorm, hid⟩]
  have key : updateTags photo db =
      { db with photoTags := db.photoTags.filter (fun a => decide (a.1 ≠ photo.id)) } := by
    unfold updateTags
    rw [hop]
    rfl
  rw [key]
  refine ⟨?_, ?_, rfl, rfl, rfl⟩
  · intro a ha
    simpa using (List.mem_filter.mp ha).2
  · intro a hne
    constructor
    · intro ha
      exact (List.mem_filter.mp ha).1
    · intro ha
      exact List.mem_filter.mpr ⟨ha, by simpa using hne⟩

/-- Witness for C9: clearing photo 5's tags removes its association and
keeps photo 6's. -/
theorem updateTags_clearing_witness :
    (5, 1) ∉ (updateTags cPhotoClear dbTwoTags).photoTags ∧
    (6, 2) ∈ (updateTags cPhotoClear dbTwoTags).photoTags := by
  have h := updateTags_clearing cPhotoClear dbTwoTags (by decide) (by decide)
  exact ⟨fun hm => h.1 (5, 1) hm (by decide),
    (h.2.1 (6, 2) (by decide)).mpr (by decide)⟩

/-- C10: for a photo with ID 0 whose tag list normalizes to nothing,
`UpdateTags` does not take the clearing path: it issues the `add_tags`
store call carrying only the photo ID (0) and no tag names. -/
theorem updateTags_zero_id_add_tags (photo : Photo)
    (h0 : photo.id = 0) (hnorm : normalizeTags photo.tags = []) :
    updateTagsOp photo = TagOp.addTags 0 [] ∧
    ∀ pid, updateTagsOp photo ≠ TagOp.clear pid := by
  have hop : updateTagsOp photo = TagOp.addTags photo.id (normalizeTags photo.tags) := by
    unfold updateTagsOp
    rw [if_neg]
    intro hcon
    exact hcon.2 h0
  rw [hop, h0, hnorm]
  refine ⟨rfl, ?_⟩
  intro pid h
  cases h

/-- Witness for C10: a zero-ID photo whose sole tag is a blank string. -/
theorem updateTags_zero_id_add_tags_witness :
    updateTagsOp cPhotoBlankTags = TagOp.addTags 0 [] ∧
    updateTagsOp cPhotoBlankTags ≠ TagOp.clear 0 := by
  have h := updateTags_zero_id_add_tags cPhotoBlankTags (by decide) (by decide)
  exact ⟨h.1, h.2 0⟩

end PhotoShare
